import Mathlib

/-!
Shallow embedding of the SHA-2 streaming digest engine of `boost/hash2/sha2.hpp`
(classes `detail::sha2_base`, `detail::sha2_256_base`, `detail::sha2_512_base`,
`sha2_256`, `sha2_224`, `sha2_512`, `sha2_384`, `sha2_512_224`, `sha2_512_256`)
and of `detail::memset` from `boost/hash2/detail/memset.hpp`.

Modelling conventions:
* a machine byte (`unsigned char`) is a `Nat`; every read of a byte goes through
  `% 256`, matching the 8-bit width;
* 32-bit and 64-bit unsigned words are `Nat` with every arithmetic operation
  wrapped by `% 2^32` resp. `% 2^64`, exactly where the C++ fixed-width
  arithmetic wraps;
* `buffer_`, an `unsigned char[N]` array, is a `List Nat` of length `N`;
  `std::memcpy(buffer_ + off, p, k)` becomes `writeBytes buffer off data`;
* the C++ default constructor leaves `buffer_` with indeterminate contents;
  the constructor model therefore takes the pre-existing contents as a
  parameter (`sha2_256_ctorWith junk` etc.); `sha2_256_ctor` is the canonical
  instance in which the indeterminate bytes are taken to be zero;
* the `while( n >= N )` loop of `sha2_base::update` is expressed by the
  fuel-indexed structural recursion `foldBlocksAux` (the fuel `p.length` is
  always sufficient since each iteration consumes `N ≥ 1` bytes).
-/

set_option maxHeartbeats 1600000

namespace Hash2

/-- detail::rotr for `std::uint32_t`: `(x >> k) | (x << (32 - k))`. -/
def rotr32 (x k : Nat) : Nat := (x >>> k ||| x <<< (32 - k)) % 2 ^ 32

/-- detail::rotr for `std::uint64_t`: `(x >> k) | (x << (64 - k))`. -/
def rotr64 (x k : Nat) : Nat := (x >>> k ||| x <<< (64 - k)) % 2 ^ 64

/-- `Ch(x,y,z) = (x & y) ^ (~x & z)`; for `x < 2^w` the complement `~x` is
`x ^^^ (2^w - 1)`, so the word mask is passed explicitly. -/
def sha2_Ch (mask x y z : Nat) : Nat := (x &&& y) ^^^ ((x ^^^ mask) &&& z)

/-- `Maj(x,y,z) = (x & y) ^ (x & z) ^ (y & z)`. -/
def sha2_Maj (x y z : Nat) : Nat := (x &&& y) ^^^ (x &&& z) ^^^ (y &&& z)

/-- `sha2_256_base::Sigma0`. -/
def sha2_256_Sigma0 (x : Nat) : Nat := rotr32 x 2 ^^^ rotr32 x 13 ^^^ rotr32 x 22

/-- `sha2_256_base::Sigma1`. -/
def sha2_256_Sigma1 (x : Nat) : Nat := rotr32 x 6 ^^^ rotr32 x 11 ^^^ rotr32 x 25

/-- `sha2_256_base::sigma0`. -/
def sha2_256_sigma0 (x : Nat) : Nat := rotr32 x 7 ^^^ rotr32 x 18 ^^^ x >>> 3

/-- `sha2_256_base::sigma1`. -/
def sha2_256_sigma1 (x : Nat) : Nat := rotr32 x 17 ^^^ rotr32 x 19 ^^^ x >>> 10

/-- `sha2_512_base::Sigma0`. -/
def sha2_512_Sigma0 (x : Nat) : Nat := rotr64 x 28 ^^^ rotr64 x 34 ^^^ rotr64 x 39

/-- `sha2_512_base::Sigma1`. -/
def sha2_512_Sigma1 (x : Nat) : Nat := rotr64 x 14 ^^^ rotr64 x 18 ^^^ rotr64 x 41

/-- `sha2_512_base::sigma0`. -/
def sha2_512_sigma0 (x : Nat) : Nat := rotr64 x 1 ^^^ rotr64 x 8 ^^^ x >>> 7

/-- `sha2_512_base::sigma1`. -/
def sha2_512_sigma1 (x : Nat) : Nat := rotr64 x 19 ^^^ rotr64 x 61 ^^^ x >>> 6

/-- The 8-word hash state `Word state_[8]` (working variables a..h). -/
structure St8 where
  a : Nat
  b : Nat
  c : Nat
  d : Nat
  e : Nat
  f : Nat
  g : Nat
  h : Nat
deriving DecidableEq

/-- `detail::read32be` / `read64be`: big-endian word from a byte run
(each byte masked to 8 bits, as `unsigned char` is). -/
def beWord (bs : List Nat) : Nat := bs.foldl (fun acc b => acc * 256 + b % 256) 0

/-- The first `k` big-endian words of `w` bytes each, from a byte list
(the `W[t] = read32be(block + t*4)` loop). -/
def beWords (w : Nat) : Nat → List Nat → List Nat
  | 0, _ => []
  | k + 1, bs => beWord (bs.take w) :: beWords w k (bs.drop w)

/-- One step of the message-schedule extension
`W[t] = sigma1(W[t-2]) + W[t-7] + sigma0(W[t-15]) + W[t-16]` (mod `M`);
the accumulator holds the schedule so far in reverse (newest word first). -/
def schedStep (s0 s1 : Nat → Nat) (M : Nat) (acc : List Nat) : List Nat :=
  (s1 (acc.getD 1 0) + acc.getD 6 0 + s0 (acc.getD 14 0) + acc.getD 15 0) % M :: acc

/-- Iterate `schedStep` `k` times. -/
def schedExtend (s0 s1 : Nat → Nat) (M : Nat) : Nat → List Nat → List Nat
  | 0, acc => acc
  | k + 1, acc => schedExtend s0 s1 M k (schedStep s0 s1 M acc)

/-- The round-constant table `K` of `sha2_256_base::transform` (the source's
hexadecimal constants, written in decimal). -/
def K256 : List Nat :=
  [1116352408, 1899447441, 3049323471, 3921009573, 961987163, 1508970993, 2453635748, 2870763221,
   3624381080, 310598401, 607225278, 1426881987, 1925078388, 2162078206, 2614888103, 3248222580,
   3835390401, 4022224774, 264347078, 604807628, 770255983, 1249150122, 1555081692, 1996064986,
   2554220882, 2821834349, 2952996808, 3210313671, 3336571891, 3584528711, 113926993, 338241895,
   666307205, 773529912, 1294757372, 1396182291, 1695183700, 1986661051, 2177026350, 2456956037,
   2730485921, 2820302411, 3259730800, 3345764771, 3516065817, 3600352804, 4094571909, 275423344,
   430227734, 506948616, 659060556, 883997877, 958139571, 1322822218, 1537002063, 1747873779,
   1955562222, 2024104815, 2227730452, 2361852424, 2428436474, 2756734187, 3204031479, 3329325298]

/-- The round-constant table `K` of `sha2_512_base::transform` (the source's
hexadecimal constants, written in decimal). -/
def K512 : List Nat :=
  [4794697086780616226, 8158064640168781261, 13096744586834688815, 16840607885511220156,
   4131703408338449720, 6480981068601479193, 10538285296894168987, 12329834152419229976,
   15566598209576043074, 1334009975649890238, 2608012711638119052, 6128411473006802146,
   8268148722764581231, 9286055187155687089, 11230858885718282805, 13951009754708518548,
   16472876342353939154, 17275323862435702243, 1135362057144423861, 2597628984639134821,
   3308224258029322869, 5365058923640841347, 6679025012923562964, 8573033837759648693,
   10970295158949994411, 12119686244451234320, 12683024718118986047, 13788192230050041572,
   14330467153632333762, 15395433587784984357, 489312712824947311, 1452737877330783856,
   2861767655752347644, 3322285676063803686, 5560940570517711597, 5996557281743188959,
   7280758554555802590, 8532644243296465576, 9350256976987008742, 10552545826968843579,
   11727347734174303076, 12113106623233404929, 14000437183269869457, 14369950271660146224,
   15101387698204529176, 15463397548674623760, 17586052441742319658, 1182934255886127544,
   1847814050463011016, 2177327727835720531, 2830643537854262169, 3796741975233480872,
   4115178125766777443, 5681478168544905931, 6601373596472566643, 7507060721942968483,
   8399075790359081724, 8693463985226723168, 9568029438360202098, 10144078919501101548,
   10430055236837252648, 11840083180663258601, 13761210420658862357, 14299343276471374635,
   14566680578165727644, 15097957966210449927, 16922976911328602910, 17689382322260857208,
   500013540394364858, 748580250866718886, 1242879168328830382, 1977374033974150939,
   2944078676154940804, 3659926193048069267, 4368137639120453308, 4836135668995329356,
   5532061633213252278, 6448918945643986474, 6902733635092675308, 7801388544844847127]

/-- One round of the compression loop: working variables rotate, with
`T1 = h + Sigma1(e) + Ch(e,f,g) + K[t] + W[t]` and `T2 = Sigma0(a) + Maj(a,b,c)`,
all word arithmetic mod `M`. -/
def sha2_round (S0 S1 : Nat → Nat) (M : Nat) (s : St8) (kw : Nat × Nat) : St8 :=
  let T1 := (s.h + S1 s.e + sha2_Ch (M - 1) s.e s.f s.g + kw.1 + kw.2) % M
  let T2 := (S0 s.a + sha2_Maj s.a s.b s.c) % M
  ⟨(T1 + T2) % M, s.a, s.b, s.c, (s.d + T1) % M, s.e, s.f, s.g⟩

/-- The full message schedule `W[0..63]` of `sha2_256_base::transform`. -/
def sha2_256_schedule (block : List Nat) : List Nat :=
  (schedExtend sha2_256_sigma0 sha2_256_sigma1 (2 ^ 32) 48 (beWords 4 16 block).reverse).reverse

/-- The full message schedule `W[0..79]` of `sha2_512_base::transform`. -/
def sha2_512_schedule (block : List Nat) : List Nat :=
  (schedExtend sha2_512_sigma0 sha2_512_sigma1 (2 ^ 64) 64 (beWords 8 16 block).reverse).reverse

/-- `sha2_256_base::transform`: 64 rounds over one 64-byte block, then the
working set is added into the state word-wise mod `2^32`. -/
def sha2_256_transform (block : List Nat) (st : St8) : St8 :=
  let fi := List.foldl (sha2_round sha2_256_Sigma0 sha2_256_Sigma1 (2 ^ 32)) st
    (List.zip K256 (sha2_256_schedule block))
  ⟨(st.a + fi.a) % 2 ^ 32, (st.b + fi.b) % 2 ^ 32, (st.c + fi.c) % 2 ^ 32,
   (st.d + fi.d) % 2 ^ 32, (st.e + fi.e) % 2 ^ 32, (st.f + fi.f) % 2 ^ 32,
   (st.g + fi.g) % 2 ^ 32, (st.h + fi.h) % 2 ^ 32⟩

/-- `sha2_512_base::transform`: 80 rounds over one 128-byte block, then the
working set is added into the state word-wise mod `2^64`. -/
def sha2_512_transform (block : List Nat) (st : St8) : St8 :=
  let fi := List.foldl (sha2_round sha2_512_Sigma0 sha2_512_Sigma1 (2 ^ 64)) st
    (List.zip K512 (sha2_512_schedule block))
  ⟨(st.a + fi.a) % 2 ^ 64, (st.b + fi.b) % 2 ^ 64, (st.c + fi.c) % 2 ^ 64,
   (st.d + fi.d) % 2 ^ 64, (st.e + fi.e) % 2 ^ 64, (st.f + fi.f) % 2 ^ 64,
   (st.g + fi.g) % 2 ^ 64, (st.h + fi.h) % 2 ^ 64⟩

/-- The mutable fields of `detail::sha2_base`: `state_`, `buffer_[N]`,
`m_` (buffered byte count) and `n_` (total byte count, a `std::uint64_t`). -/
structure Sha2Base where
  state_ : St8
  buffer_ : List Nat
  m_ : Nat
  n_ : Nat
deriving DecidableEq

/-- `std::memcpy(buf + off, data, data.length)` within a byte array. -/
def writeBytes (buf : List Nat) (off : Nat) (data : List Nat) : List Nat :=
  buf.take off ++ data ++ buf.drop (off + data.length)

/-- The `while (n >= N) { transform(p); p += N; n -= N; }` loop of
`sha2_base::update`, with explicit structural fuel (one unit per iteration;
`p.length` units always suffice since `N ≥ 1`). Returns the state after all
full leading blocks, and the remaining bytes. -/
def foldBlocksAux (tf : List Nat → St8 → St8) (N : Nat) :
    Nat → St8 → List Nat → St8 × List Nat
  | 0, st, p => (st, p)
  | fuel + 1, st, p =>
    if N ≤ p.length then foldBlocksAux tf N fuel (tf (p.take N) st) (p.drop N)
    else (st, p)

/-- The block-eating loop of `sha2_base::update` at its natural fuel. -/
def foldBlocks (tf : List Nat → St8 → St8) (N : Nat) (st : St8) (p : List Nat) :
    St8 × List Nat :=
  foldBlocksAux tf N p.length st p

/-- `detail::sha2_base::update(p, n)`. The total counter `n_` is a
`std::uint64_t`, so it is incremented mod `2^64` (and before any transform).
If a partial block is pending it is topped up first (and transformed and
zeroed if it becomes full), then whole blocks are transformed directly from
the input, and the remaining tail is copied to the front of the buffer. -/
def sha2_update (tf : List Nat → St8 → St8) (N : Nat) (s : Sha2Base) (p : List Nat) :
    Sha2Base :=
  let n2 := (s.n_ + p.length) % 2 ^ 64
  if 0 < s.m_ then
    let k := min (N - s.m_) p.length
    let buf := writeBytes s.buffer_ s.m_ (p.take k)
    if s.m_ + k < N then
      { s with buffer_ := buf, m_ := s.m_ + k, n_ := n2 }
    else
      let pr := foldBlocks tf N (tf buf s.state_) (p.drop k)
      { state_ := pr.1, buffer_ := writeBytes (List.replicate N 0) 0 pr.2,
        m_ := pr.2.length, n_ := n2 }
  else
    let pr := foldBlocks tf N s.state_ p
    { state_ := pr.1, buffer_ := writeBytes s.buffer_ 0 pr.2,
      m_ := pr.2.length, n_ := n2 }

/-- `sha2_256::update` (shared by `sha2_224` through `sha2_256_base`). -/
def sha2_256_update (s : Sha2Base) (p : List Nat) : Sha2Base :=
  sha2_update sha2_256_transform 64 s p

/-- `sha2_512::update` (shared by the whole 128-byte-block family). -/
def sha2_512_update (s : Sha2Base) (p : List Nat) : Sha2Base :=
  sha2_update sha2_512_transform 128 s p

/-- Force a byte list to length `N`, padding with zeros. -/
def padTo (N : Nat) (l : List Nat) : List Nat := (l ++ List.replicate N 0).take N

/-- `sha2_256::init` initialization vector (the source's hexadecimal
constants, written in decimal). -/
def sha2_256_iv : St8 :=
  ⟨1779033703, 3144134277, 1013904242, 2773480762,
   1359893119, 2600822924, 528734635, 1541459225⟩

/-- `sha2_224::init` initialization vector. -/
def sha2_224_iv : St8 :=
  ⟨3238371032, 914150663, 812702999, 4144912697,
   4290775857, 1750603025, 1694076839, 3204075428⟩

/-- `sha2_512::init` initialization vector. -/
def sha2_512_iv : St8 :=
  ⟨7640891576956012808, 13503953896175478587, 4354685564936845355, 11912009170470909681,
   5840696475078001361, 11170449401992604703, 2270897969802886507, 6620516959819538809⟩

/-- `sha2_384::init` initialization vector. -/
def sha2_384_iv : St8 :=
  ⟨14680500436340154072, 7105036623409894663, 10473403895298186519, 1526699215303891257,
   7436329637833083697, 10282925794625328401, 15784041429090275239, 5167115440072839076⟩

/-- `sha2_512_224::init` initialization vector. -/
def sha2_512_224_iv : St8 :=
  ⟨10105294471447203234, 8350123849800275158, 2160240930085379202, 7466358040605728719,
   1111592415079452072, 8638871050018654530, 4583966954114332360, 1230299281376055969⟩

/-- `sha2_512_256::init` initialization vector. -/
def sha2_512_256_iv : St8 :=
  ⟨2463787394917988140, 11481187982095705282, 2563595384472711505, 10824532655140301501,
   10819967247969091555, 13717434660681038226, 3098927326965381290, 1060366662362279074⟩

/-- Generic constructed state: `m_ = 0`, `n_ = 0`, given IV; the C++
constructor leaves `buffer_` indeterminate, modelled by the `junk` parameter
(forced to the array length `N`). -/
def sha2_ctorWith (iv : St8) (N : Nat) (junk : List Nat) : Sha2Base :=
  ⟨iv, padTo N junk, 0, 0⟩

/-- `sha2_256()` with indeterminate construction-time buffer contents `junk`. -/
def sha2_256_ctorWith (junk : List Nat) : Sha2Base := sha2_ctorWith sha2_256_iv 64 junk

/-- `sha2_256()`, indeterminate buffer contents modelled as zero. -/
def sha2_256_ctor : Sha2Base := sha2_256_ctorWith []

/-- `sha2_224()` with indeterminate buffer contents `junk`. -/
def sha2_224_ctorWith (junk : List Nat) : Sha2Base := sha2_ctorWith sha2_224_iv 64 junk

/-- `sha2_224()`, indeterminate buffer contents modelled as zero. -/
def sha2_224_ctor : Sha2Base := sha2_224_ctorWith []

/-- `sha2_512()` with indeterminate buffer contents `junk`. -/
def sha2_512_ctorWith (junk : List Nat) : Sha2Base := sha2_ctorWith sha2_512_iv 128 junk

/-- `sha2_512()`, indeterminate buffer contents modelled as zero. -/
def sha2_512_ctor : Sha2Base := sha2_512_ctorWith []

/-- `sha2_384()` with indeterminate buffer contents `junk`. -/
def sha2_384_ctorWith (junk : List Nat) : Sha2Base := sha2_ctorWith sha2_384_iv 128 junk

/-- `sha2_384()`, indeterminate buffer contents modelled as zero. -/
def sha2_384_ctor : Sha2Base := sha2_384_ctorWith []

/-- `sha2_512_224()` with indeterminate buffer contents `junk`. -/
def sha2_512_224_ctorWith (junk : List Nat) : Sha2Base :=
  sha2_ctorWith sha2_512_224_iv 128 junk

/-- `sha2_512_224()`, indeterminate buffer contents modelled as zero. -/
def sha2_512_224_ctor : Sha2Base := sha2_512_224_ctorWith []

/-- `sha2_512_256()` with indeterminate buffer contents `junk`. -/
def sha2_512_256_ctorWith (junk : List Nat) : Sha2Base :=
  sha2_ctorWith sha2_512_256_iv 128 junk

/-- `sha2_512_256()`, indeterminate buffer contents modelled as zero. -/
def sha2_512_256_ctor : Sha2Base := sha2_512_256_ctorWith []

/-- `detail::write32be` / `write64be` and friends: the `w`-byte big-endian
encoding of `x` (of `x mod 2^(8w)`; higher bits are discarded exactly as the
fixed-width C++ argument type discards them). -/
def bytesBE : Nat → Nat → List Nat
  | 0, _ => []
  | w + 1, x => bytesBE w (x / 256) ++ [x % 256]

/-- The zero-padding length `k = m_ < 56 ? 56 - m_ : 64 + 56 - m_` computed by
every 64-byte-block `result()`. -/
def sha2_256_pad_k (m : Nat) : Nat := if m < 56 then 56 - m else 64 + 56 - m

/-- The zero-padding length `k = m_ < 112 ? 112 - m_ : 128 + 112 - m_` computed
by every 128-byte-block `result()`. -/
def sha2_512_pad_k (m : Nat) : Nat := if m < 112 then 112 - m else 128 + 112 - m

/-- The local array `unsigned char padding[N] = { 0x80 };` of `result()`. -/
def sha2_padding (N : Nat) : List Nat := 0x80 :: List.replicate (N - 1) 0

/-- The 8-byte length field `write64be(bits, n_ * 8)` of the 64-byte-block
family's `result()` (computed from `n_` before the padding updates run). -/
def sha2_256_bits (s : Sha2Base) : List Nat := bytesBE 8 (s.n_ * 8)

/-- The 16-byte length field `bits[16] = {0}; write64be(bits + 8, n_ * 8)` of
the 128-byte-block family's `result()`: high 64 bits literally zero. -/
def sha2_512_bits (s : Sha2Base) : List Nat :=
  List.replicate 8 0 ++ bytesBE 8 (s.n_ * 8)

/-- The state after the two padding updates `update(padding, k); update(bits, 8)`
shared by `sha2_256::result` and `sha2_224::result`. -/
def sha2_256_finalState (s : Sha2Base) : Sha2Base :=
  sha2_256_update (sha2_256_update s ((sha2_padding 64).take (sha2_256_pad_k s.m_)))
    (sha2_256_bits s)

/-- The state after the two padding updates `update(padding, k); update(bits, 16)`
shared by every 128-byte-block `result()`. -/
def sha2_512_finalState (s : Sha2Base) : Sha2Base :=
  sha2_512_update (sha2_512_update s ((sha2_padding 128).take (sha2_512_pad_k s.m_)))
    (sha2_512_bits s)

/-- `sha2_256::result`: pad, then emit all 8 state words big-endian. -/
def sha2_256_result (s : Sha2Base) : List Nat :=
  let t := sha2_256_finalState s
  bytesBE 4 t.state_.a ++ bytesBE 4 t.state_.b ++ bytesBE 4 t.state_.c ++
  bytesBE 4 t.state_.d ++ bytesBE 4 t.state_.e ++ bytesBE 4 t.state_.f ++
  bytesBE 4 t.state_.g ++ bytesBE 4 t.state_.h

/-- `sha2_224::result`: pad, then emit the first 7 of 8 state words. -/
def sha2_224_result (s : Sha2Base) : List Nat :=
  let t := sha2_256_finalState s
  bytesBE 4 t.state_.a ++ bytesBE 4 t.state_.b ++ bytesBE 4 t.state_.c ++
  bytesBE 4 t.state_.d ++ bytesBE 4 t.state_.e ++ bytesBE 4 t.state_.f ++
  bytesBE 4 t.state_.g

/-- `sha2_512::result`: pad, then emit all 8 state words big-endian. -/
def sha2_512_result (s : Sha2Base) : List Nat :=
  let t := sha2_512_finalState s
  bytesBE 8 t.state_.a ++ bytesBE 8 t.state_.b ++ bytesBE 8 t.state_.c ++
  bytesBE 8 t.state_.d ++ bytesBE 8 t.state_.e ++ bytesBE 8 t.state_.f ++
  bytesBE 8 t.state_.g ++ bytesBE 8 t.state_.h

/-- `sha2_384::result`: pad, then emit the first 6 state words. -/
def sha2_384_result (s : Sha2Base) : List Nat :=
  let t := sha2_512_finalState s
  bytesBE 8 t.state_.a ++ bytesBE 8 t.state_.b ++ bytesBE 8 t.state_.c ++
  bytesBE 8 t.state_.d ++ bytesBE 8 t.state_.e ++ bytesBE 8 t.state_.f

/-- `sha2_512_224::result`: pad, then emit the first 3 full 64-bit state words
and `write32be(state_[3] >> 32)`, the high half of the fourth. -/
def sha2_512_224_result (s : Sha2Base) : List Nat :=
  let t := sha2_512_finalState s
  bytesBE 8 t.state_.a ++ bytesBE 8 t.state_.b ++ bytesBE 8 t.state_.c ++
  bytesBE 4 (t.state_.d >>> 32)

/-- `sha2_512_256::result`: pad, then emit the first 4 state words. -/
def sha2_512_256_result (s : Sha2Base) : List Nat :=
  let t := sha2_512_finalState s
  bytesBE 8 t.state_.a ++ bytesBE 8 t.state_.b ++ bytesBE 8 t.state_.c ++
  bytesBE 8 t.state_.d

/-- `detail::memset`, constant-evaluated branch: the loop
`for (i = 0; i < n; ++i) p[i] = v;`. -/
def memset_loop (p : List Nat) (v : Nat) : Nat → List Nat
  | 0 => p
  | n + 1 => (memset_loop p v n).set n v

/-- `detail::memset`, runtime branch: `std::memset(p, v, n)` sets the first
`n` bytes to `v` and leaves the rest of the object unchanged. -/
def memset_std (p : List Nat) (v : Nat) (n : Nat) : List Nat :=
  List.replicate n v ++ p.drop n

/-- Total byte count of a sequence of update calls. -/
def totalLen (msgs : List (List Nat)) : Nat := (msgs.map List.length).sum

/-- Big-endian value of a byte list (decoder used to state length-field
claims). -/
def beVal (l : List Nat) : Nat := l.foldl (fun acc b => acc * 256 + b) 0

/-- Well-formedness of a reachable state whose construction-time indeterminate
buffer bytes are taken as zero: buffered count below the block size, buffer of
exactly one block, zero unfilled tail, and an in-range 64-bit counter. -/
def goodState (N : Nat) (s : Sha2Base) : Prop :=
  s.m_ < N ∧ s.buffer_.length = N ∧
  s.buffer_.drop s.m_ = List.replicate (N - s.m_) 0 ∧ s.n_ < 2 ^ 64

/-- Canonical state built from a (state, residue) pair of `foldBlocks` and a
total counter: the residue sits at the front of an otherwise zero buffer. -/
def mkSt (N : Nat) (pr : St8 × List Nat) (n2 : Nat) : Sha2Base :=
  ⟨pr.1, pr.2 ++ List.replicate (N - pr.2.length) 0, pr.2.length, n2⟩

/-- Observational equivalence of two digest states: they agree on every
component the algorithm ever reads (hash words, counters, and the live
`buffer_` prefix below `m_`), while the dead buffer tail may differ. -/
def liveEq (N : Nat) (s t : Sha2Base) : Prop :=
  s.state_ = t.state_ ∧ s.m_ = t.m_ ∧ s.n_ = t.n_ ∧
  s.buffer_.take s.m_ = t.buffer_.take t.m_ ∧
  s.m_ < N ∧ s.buffer_.length = N ∧ t.buffer_.length = N

theorem foldBlocksAux_nil (tf : List Nat → St8 → St8) (N : Nat) (hN : 0 < N) :
    ∀ fuel st, foldBlocksAux tf N fuel st [] = (st, []) := by
  intro fuel st
  cases fuel with
  | zero => rfl
  | succ f =>
    simp only [foldBlocksAux, List.length_nil]
    rw [if_neg (by omega)]

theorem foldBlocksAux_fuel (tf : List Nat → St8 → St8) (N : Nat) (hN : 0 < N) :
    ∀ fuel1 fuel2 st p, p.length ≤ fuel1 → p.length ≤ fuel2 →
      foldBlocksAux tf N fuel1 st p = foldBlocksAux tf N fuel2 st p := by
  intro fuel1
  induction fuel1 with
  | zero =>
    intro fuel2 st p h1 _
    have hp : p = [] := List.eq_nil_of_length_eq_zero (Nat.le_zero.mp h1)
    subst hp
    rw [foldBlocksAux_nil tf N hN, foldBlocksAux_nil tf N hN]
  | succ f ih =>
    intro fuel2 st p h1 h2
    cases fuel2 with
    | zero =>
      have hp : p = [] := List.eq_nil_of_length_eq_zero (Nat.le_zero.mp h2)
      subst hp
      rw [foldBlocksAux_nil tf N hN, foldBlocksAux_nil tf N hN]
    | succ f2 =>
      simp only [foldBlocksAux]
      by_cases hc : N ≤ p.length
      · rw [if_pos hc, if_pos hc]
        apply ih
        · rw [List.length_drop]; omega
        · rw [List.length_drop]; omega
      · rw [if_neg hc, if_neg hc]

theorem foldBlocks_small (tf : List Nat → St8 → St8) (N : Nat) (st : St8)
    (p : List Nat) (h : p.length < N) : foldBlocks tf N st p = (st, p) := by
  cases p with
  | nil => rfl
  | cons x t =>
    show foldBlocksAux tf N (t.length + 1) st (x :: t) = (st, x :: t)
    simp only [foldBlocksAux]
    rw [if_neg (by simp only [List.length_cons] at h ⊢; omega)]

theorem foldBlocks_block (tf : List Nat → St8 → St8) (N : Nat) (hN : 0 < N)
    (st : St8) (B q : List Nat) (hB : B.length = N) :
    foldBlocks tf N st (B ++ q) = foldBlocks tf N (tf B st) q := by
  subst hB
  show foldBlocksAux tf B.length ((B ++ q).length) st (B ++ q) = _
  have hl : (B ++ q).length = (B.length - 1 + q.length) + 1 := by
    simp only [List.length_append]; omega
  rw [hl]
  simp only [foldBlocksAux]
  rw [if_pos (by simp only [List.length_append]; omega)]
  rw [List.take_left, List.drop_left]
  exact foldBlocksAux_fuel tf B.length hN _ _ _ _ (by omega) le_rfl

theorem foldBlocksAux_snd_length (tf : List Nat → St8 → St8) (N : Nat) (hN : 0 < N) :
    ∀ fuel st p, p.length ≤ fuel →
      ((foldBlocksAux tf N fuel st p).2).length = p.length % N := by
  intro fuel
  induction fuel with
  | zero =>
    intro st p h1
    have hp : p = [] := List.eq_nil_of_length_eq_zero (Nat.le_zero.mp h1)
    subst hp
    simp [foldBlocksAux]
  | succ f ih =>
    intro st p h1
    simp only [foldBlocksAux]
    by_cases hc : N ≤ p.length
    · rw [if_pos hc, ih _ _ (by rw [List.length_drop]; omega), List.length_drop,
        ← Nat.mod_eq_sub_mod hc]
    · rw [if_neg hc]
      show p.length = p.length % N
      exact (Nat.mod_eq_of_lt (by omega)).symm

theorem foldBlocks_snd_length (tf : List Nat → St8 → St8) (N : Nat) (hN : 0 < N)
    (st : St8) (p : List Nat) :
    ((foldBlocks tf N st p).2).length = p.length % N :=
  foldBlocksAux_snd_length tf N hN p.length st p le_rfl

theorem foldBlocks_append (tf : List Nat → St8 → St8) (N : Nat) (hN : 0 < N) :
    ∀ fuel x, x.length ≤ fuel → ∀ st y,
      foldBlocks tf N st (x ++ y) =
        foldBlocks tf N (foldBlocks tf N st x).1 ((foldBlocks tf N st x).2 ++ y) := by
  intro fuel
  induction fuel with
  | zero =>
    intro x hx st y
    have hp : x = [] := List.eq_nil_of_length_eq_zero (Nat.le_zero.mp hx)
    subst hp
    rw [foldBlocks_small tf N st [] (by simpa using hN)]
  | succ f ih =>
    intro x hx st y
    by_cases hc : x.length < N
    · rw [foldBlocks_small tf N st x hc]
    · have hxsplit : x.take N ++ x.drop N = x := List.take_append_drop N x
      have hlen : (x.take N).length = N := by rw [List.length_take]; omega
      have h1 : foldBlocks tf N st (x ++ y) =
          foldBlocks tf N (tf (x.take N) st) (x.drop N ++ y) := by
        conv_lhs => rw [← hxsplit]
        rw [List.append_assoc]
        exact foldBlocks_block tf N hN st _ _ hlen
      have h2 : foldBlocks tf N st x =
          foldBlocks tf N (tf (x.take N) st) (x.drop N) := by
        conv_lhs => rw [← hxsplit]
        exact foldBlocks_block tf N hN st _ _ hlen
      rw [h1, h2]
      exact ih (x.drop N) (by rw [List.length_drop]; omega) _ y

theorem sha2_update_canon (tf : List Nat → St8 → St8) (N : Nat) (hN : 0 < N)
    (s : Sha2Base) (h : goodState N s) (p : List Nat) :
    sha2_update tf N s p =
      mkSt N (foldBlocks tf N s.state_ (s.buffer_.take s.m_ ++ p))
        ((s.n_ + p.length) % 2 ^ 64) := by
  obtain ⟨hm, hlen, hdrop, _⟩ := h
  have htakelen : (s.buffer_.take s.m_).length = s.m_ := by
    rw [List.length_take]; omega
  have wz : ∀ data : List Nat, writeBytes (List.replicate N 0) 0 data =
      data ++ List.replicate (N - data.length) 0 := by
    intro data
    simp [writeBytes, List.drop_replicate]
  by_cases h0 : 0 < s.m_
  · by_cases hin : s.m_ + min (N - s.m_) p.length < N
    · -- the input fits in the partial buffer: no transform runs
      have hkp : min (N - s.m_) p.length = p.length := by omega
      have hsmall : (s.buffer_.take s.m_ ++ p).length < N := by
        rw [List.length_append, htakelen]; omega
      have hdropA : List.drop (s.m_ + p.length) s.buffer_ =
          List.replicate (N - (s.m_ + p.length)) 0 := by
        rw [← List.drop_drop, hdrop, List.drop_replicate]
        congr 1
        omega
      have hmA : (s.buffer_.take s.m_ ++ p).length = s.m_ + p.length := by
        rw [List.length_append, htakelen]
      rw [foldBlocks_small tf N _ _ hsmall]
      simp only [sha2_update, mkSt]
      rw [if_pos h0, hkp, if_pos (by rw [hkp] at hin; exact hin)]
      simp only [writeBytes, List.take_length, hmA, hdropA, List.append_assoc]
    · -- the partial buffer is topped up to a full block and transformed
      have hk : min (N - s.m_) p.length = N - s.m_ := by omega
      have hklen : (p.take (N - s.m_)).length = N - s.m_ := by
        rw [List.length_take]; omega
      have hbuf2 : writeBytes s.buffer_ s.m_ (p.take (N - s.m_)) =
          s.buffer_.take s.m_ ++ p.take (N - s.m_) := by
        simp only [writeBytes, hklen]
        rw [show s.m_ + (N - s.m_) = N from by omega, ← hlen, List.drop_length,
          List.append_nil]
      have hBlen : (s.buffer_.take s.m_ ++ p.take (N - s.m_)).length = N := by
        rw [List.length_append, htakelen, hklen]; omega
      have hsplit : s.buffer_.take s.m_ ++ p =
          (s.buffer_.take s.m_ ++ p.take (N - s.m_)) ++ p.drop (N - s.m_) := by
        rw [List.append_assoc, List.take_append_drop]
      rw [hsplit, foldBlocks_block tf N hN _ _ _ hBlen]
      simp only [sha2_update, mkSt]
      rw [if_pos h0, hk, if_neg (by rw [hk] at hin; exact hin), hbuf2, wz]
  · -- no partial block pending
    have hm0 : s.m_ = 0 := by omega
    have hbufrep : s.buffer_ = List.replicate N 0 := by
      have hd := hdrop
      rw [hm0, List.drop_zero, Nat.sub_zero] at hd
      exact hd
    have w0 : ∀ data : List Nat, writeBytes s.buffer_ 0 data =
        data ++ List.replicate (N - data.length) 0 := by
      intro data
      simp [writeBytes, hbufrep, List.drop_replicate]
    simp only [sha2_update, mkSt]
    rw [if_neg h0, hm0, w0]
    simp only [List.take_zero, List.nil_append]

theorem goodState_mkSt (N : Nat) (pr : St8 × List Nat)
    (h2 : pr.2.length < N) (n2 : Nat) (hn : n2 < 2 ^ 64) :
    goodState N (mkSt N pr n2) := by
  refine ⟨h2, ?_, ?_, hn⟩
  · simp only [mkSt, List.length_append, List.length_replicate]
    omega
  · simp only [mkSt]
    exact List.drop_left pr.2 _

theorem mkSt_take (N : Nat) (pr : St8 × List Nat) (n2 : Nat) :
    (mkSt N pr n2).buffer_.take (mkSt N pr n2).m_ = pr.2 := by
  simp only [mkSt]
  exact List.take_left pr.2 _

theorem goodState_update (tf : List Nat → St8 → St8) (N : Nat) (hN : 0 < N)
    (s : Sha2Base) (h : goodState N s) (p : List Nat) :
    goodState N (sha2_update tf N s p) := by
  rw [sha2_update_canon tf N hN s h p]
  refine goodState_mkSt N _ ?_ _ (Nat.mod_lt _ (by positivity))
  rw [foldBlocks_snd_length tf N hN]
  exact Nat.mod_lt _ hN

theorem sha2_update_append (tf : List Nat → St8 → St8) (N : Nat) (hN : 0 < N)
    (s : Sha2Base) (h : goodState N s) (p q : List Nat) :
    sha2_update tf N (sha2_update tf N s p) q = sha2_update tf N s (p ++ q) := by
  have h1 := sha2_update_canon tf N hN s h p
  have hg : goodState N (sha2_update tf N s p) := goodState_update tf N hN s h p
  rw [sha2_update_canon tf N hN _ hg q, sha2_update_canon tf N hN s h (p ++ q), h1,
    mkSt_take]
  simp only [mkSt]
  rw [← List.append_assoc,
    foldBlocks_append tf N hN (s.buffer_.take s.m_ ++ p).length _ le_rfl s.state_ q,
    Nat.mod_add_mod, List.length_append, Nat.add_assoc]

theorem sha2_update_nil (tf : List Nat → St8 → St8) (N : Nat) (hN : 0 < N)
    (s : Sha2Base) (h : goodState N s) : sha2_update tf N s [] = s := by
  obtain ⟨hm, hlen, hdrop, hn⟩ := h
  have htakelen : (s.buffer_.take s.m_).length = s.m_ := by
    rw [List.length_take]; omega
  rw [sha2_update_canon tf N hN s ⟨hm, hlen, hdrop, hn⟩ []]
  rw [List.append_nil, foldBlocks_small tf N _ _ (by rw [htakelen]; omega)]
  simp only [mkSt, List.length_nil, Nat.add_zero]
  cases s with
  | mk st buf m n =>
    simp only at htakelen hdrop hn ⊢
    rw [htakelen, ← hdrop, List.take_append_drop, Nat.mod_eq_of_lt hn]

theorem sha2_update_foldl (tf : List Nat → St8 → St8) (N : Nat) (hN : 0 < N) :
    ∀ (chunks : List (List Nat)) (s : Sha2Base), goodState N s →
      List.foldl (sha2_update tf N) s chunks = sha2_update tf N s chunks.flatten := by
  intro chunks
  induction chunks with
  | nil =>
    intro s h
    simp only [List.foldl_nil, List.flatten_nil]
    exact (sha2_update_nil tf N hN s h).symm
  | cons c cs ih =>
    intro s h
    simp only [List.foldl_cons, List.flatten_cons]
    rw [ih _ (goodState_update tf N hN s h c), sha2_update_append tf N hN s h c cs.flatten]

theorem goodState_ctor (iv : St8) (N : Nat) (hN : 0 < N) :
    goodState N (sha2_ctorWith iv N []) := by
  refine ⟨hN, ?_, ?_, by positivity⟩
  · simp [sha2_ctorWith, padTo]
  · simp [sha2_ctorWith, padTo, List.take_replicate, List.drop_replicate]

theorem writeBytes_length (buf : List Nat) (off : Nat) (data : List Nat)
    (h1 : off + data.length ≤ buf.length) :
    (writeBytes buf off data).length = buf.length := by
  simp only [writeBytes, List.length_append, List.length_take, List.length_drop]
  omega

theorem writeBytes_take (buf : List Nat) (off : Nat) (data : List Nat)
    (h1 : off ≤ buf.length) :
    (writeBytes buf off data).take (off + data.length) = buf.take off ++ data := by
  show ((buf.take off ++ data) ++ buf.drop (off + data.length)).take (off + data.length) =
    buf.take off ++ data
  rw [show off + data.length = (buf.take off ++ data).length from by
    rw [List.length_append, List.length_take]; omega]
  exact List.take_left _ _

theorem writeBytes_full (buf : List Nat) (off : Nat) (data : List Nat)
    (h1 : off + data.length = buf.length) :
    writeBytes buf off data = buf.take off ++ data := by
  show (buf.take off ++ data) ++ buf.drop (off + data.length) = buf.take off ++ data
  rw [h1, List.drop_length, List.append_nil]

theorem padTo_length (N : Nat) (l : List Nat) : (padTo N l).length = N := by
  simp only [padTo, List.length_take, List.length_append, List.length_replicate]
  omega

theorem liveEq_update (tf : List Nat → St8 → St8) (N : Nat) (hN : 0 < N)
    (s t : Sha2Base) (h : liveEq N s t) (p : List Nat) :
    liveEq N (sha2_update tf N s p) (sha2_update tf N t p) := by
  obtain ⟨hst, hm, hn, hbuf, hmlt, hsl, htl⟩ := h
  rw [← hm] at hbuf
  simp only [sha2_update, ← hst, ← hm, ← hn]
  by_cases h0 : 0 < s.m_
  · rw [if_pos h0, if_pos h0]
    have hkle : min (N - s.m_) p.length ≤ p.length := Nat.min_le_right _ _
    have hdlen : (p.take (min (N - s.m_) p.length)).length = min (N - s.m_) p.length := by
      rw [List.length_take]; omega
    by_cases hin : s.m_ + min (N - s.m_) p.length < N
    · rw [if_pos hin, if_pos hin]
      refine ⟨rfl, rfl, rfl, ?_, hin, ?_, ?_⟩
      · rw [show s.m_ + min (N - s.m_) p.length =
            s.m_ + (p.take (min (N - s.m_) p.length)).length from by rw [hdlen]]
        rw [writeBytes_take s.buffer_ _ _ (by omega),
          writeBytes_take t.buffer_ _ _ (by omega), hbuf]
      · rw [writeBytes_length s.buffer_ _ _ (by rw [hdlen]; omega)]
        exact hsl
      · rw [writeBytes_length t.buffer_ _ _ (by rw [hdlen]; omega)]
        exact htl
    · rw [if_neg hin, if_neg hin]
      have hfull : s.m_ + min (N - s.m_) p.length = N := by omega
      have hrw : writeBytes t.buffer_ s.m_ (p.take (min (N - s.m_) p.length)) =
          writeBytes s.buffer_ s.m_ (p.take (min (N - s.m_) p.length)) := by
        rw [writeBytes_full s.buffer_ _ _ (by rw [hdlen]; omega),
          writeBytes_full t.buffer_ _ _ (by rw [hdlen]; omega), hbuf]
      rw [hrw]
      have hrest : ((foldBlocks tf N
          (tf (writeBytes s.buffer_ s.m_ (p.take (min (N - s.m_) p.length))) s.state_)
          (p.drop (min (N - s.m_) p.length))).2).length < N := by
        rw [foldBlocks_snd_length tf N hN]
        exact Nat.mod_lt _ hN
      refine ⟨rfl, rfl, rfl, rfl, hrest, ?_, ?_⟩
      · rw [writeBytes_length _ _ _ (by rw [List.length_replicate]; omega),
          List.length_replicate]
      · rw [writeBytes_length _ _ _ (by rw [List.length_replicate]; omega),
          List.length_replicate]
  · rw [if_neg h0, if_neg h0]
    have hrest : ((foldBlocks tf N s.state_ p).2).length < N := by
      rw [foldBlocks_snd_length tf N hN]
      exact Nat.mod_lt _ hN
    refine ⟨rfl, rfl, rfl, ?_, hrest, ?_, ?_⟩
    · rw [show ((foldBlocks tf N s.state_ p).2).length =
          0 + ((foldBlocks tf N s.state_ p).2).length from (Nat.zero_add _).symm]
      rw [writeBytes_take s.buffer_ _ _ (by omega),
        writeBytes_take t.buffer_ _ _ (by omega)]
      simp
    · rw [writeBytes_length s.buffer_ _ _ (by omega)]
      exact hsl
    · rw [writeBytes_length t.buffer_ _ _ (by omega)]
      exact htl

theorem liveEq_ctorWith (iv : St8) (N : Nat) (hN : 0 < N) (junk1 junk2 : List Nat) :
    liveEq N (sha2_ctorWith iv N junk1) (sha2_ctorWith iv N junk2) :=
  ⟨rfl, rfl, rfl, by simp [sha2_ctorWith], hN,
    padTo_length N junk1, padTo_length N junk2⟩

theorem liveEq_foldl (tf : List Nat → St8 → St8) (N : Nat) (hN : 0 < N) :
    ∀ (msgs : List (List Nat)) (s t : Sha2Base), liveEq N s t →
      liveEq N (List.foldl (sha2_update tf N) s msgs)
        (List.foldl (sha2_update tf N) t msgs) := by
  intro msgs
  induction msgs with
  | nil => intro s t h; exact h
  | cons c cs ih =>
    intro s t h
    exact ih _ _ (liveEq_update tf N hN s t h c)

theorem liveEq_finalState256 (s t : Sha2Base) (h : liveEq 64 s t) :
    (sha2_256_finalState s).state_ = (sha2_256_finalState t).state_ := by
  obtain ⟨-, hm, hn, -, -, -, -⟩ := h.imp id id
  have h2 := liveEq_update sha2_256_transform 64 (by omega) s t h
    ((sha2_padding 64).take (sha2_256_pad_k s.m_))
  have h3 := liveEq_update sha2_256_transform 64 (by omega) _ _ h2 (sha2_256_bits s)
  simp only [sha2_256_finalState, sha2_256_update, sha2_256_bits, ← hm, ← hn]
  simp only [sha2_256_update] at h3
  exact h3.1

theorem liveEq_finalState512 (s t : Sha2Base) (h : liveEq 128 s t) :
    (sha2_512_finalState s).state_ = (sha2_512_finalState t).state_ := by
  obtain ⟨-, hm, hn, -, -, -, -⟩ := h.imp id id
  have h2 := liveEq_update sha2_512_transform 128 (by omega) s t h
    ((sha2_padding 128).take (sha2_512_pad_k s.m_))
  have h3 := liveEq_update sha2_512_transform 128 (by omega) _ _ h2 (sha2_512_bits s)
  simp only [sha2_512_finalState, sha2_512_update, sha2_512_bits, ← hm, ← hn]
  simp only [sha2_512_update] at h3
  exact h3.1

theorem liveEq_results256 (s t : Sha2Base) (h : liveEq 64 s t) :
    sha2_256_result s = sha2_256_result t ∧ sha2_224_result s = sha2_224_result t := by
  have hs := liveEq_finalState256 s t h
  constructor
  · simp only [sha2_256_result, hs]
  · simp only [sha2_224_result, hs]

theorem liveEq_results512 (s t : Sha2Base) (h : liveEq 128 s t) :
    sha2_512_result s = sha2_512_result t ∧ sha2_384_result s = sha2_384_result t ∧
    sha2_512_224_result s = sha2_512_224_result t ∧
    sha2_512_256_result s = sha2_512_256_result t := by
  have hs := liveEq_finalState512 s t h
  refine ⟨?_, ?_, ?_, ?_⟩
  · simp only [sha2_512_result, hs]
  · simp only [sha2_384_result, hs]
  · simp only [sha2_512_224_result, hs]
  · simp only [sha2_512_256_result, hs]

theorem sha2_update_inv (tf : List Nat → St8 → St8) (N : Nat) (hN : 0 < N)
    (hdvd : N ∣ 2 ^ 64) (s : Sha2Base) (p : List Nat)
    (hm : s.m_ < N) (hinv : s.m_ = s.n_ % N) :
    (sha2_update tf N s p).n_ = (s.n_ + p.length) % 2 ^ 64 ∧
    (sha2_update tf N s p).m_ < N ∧
    (sha2_update tf N s p).m_ = (sha2_update tf N s p).n_ % N := by
  have hmodN : ∀ x : Nat, x % 2 ^ 64 % N = x % N := fun x => Nat.mod_mod_of_dvd x hdvd
  simp only [sha2_update]
  by_cases h0 : 0 < s.m_
  · by_cases hin : s.m_ + min (N - s.m_) p.length < N
    · rw [if_pos h0, if_pos hin]
      have hk : min (N - s.m_) p.length = p.length := by omega
      refine ⟨rfl, hin, ?_⟩
      simp only [hk, hmodN]
      rw [← Nat.mod_add_mod, ← hinv, Nat.mod_eq_of_lt (by omega)]
    · rw [if_pos h0, if_neg hin]
      have hk : min (N - s.m_) p.length = N - s.m_ := by omega
      have hkle : N - s.m_ ≤ p.length := by omega
      refine ⟨rfl, ?_, ?_⟩
      · rw [foldBlocks_snd_length tf N hN]; exact Nat.mod_lt _ hN
      · rw [foldBlocks_snd_length tf N hN]
        simp only [List.length_drop, hk, hmodN]
        rw [← Nat.mod_add_mod, ← hinv,
          show s.m_ + p.length = (p.length - (N - s.m_)) + N from by omega,
          Nat.add_mod_right]
  · rw [if_neg h0]
    have hm0 : s.m_ = 0 := by omega
    refine ⟨rfl, ?_, ?_⟩
    · rw [foldBlocks_snd_length tf N hN]; exact Nat.mod_lt _ hN
    · rw [foldBlocks_snd_length tf N hN]
      simp only [hmodN]
      rw [← Nat.mod_add_mod, ← hinv, hm0, Nat.zero_add]

theorem sha2_foldl_inv (tf : List Nat → St8 → St8) (N : Nat) (hN : 0 < N)
    (hdvd : N ∣ 2 ^ 64) :
    ∀ (msgs : List (List Nat)) (s : Sha2Base),
      s.m_ < N → s.m_ = s.n_ % N → s.n_ < 2 ^ 64 →
      (List.foldl (sha2_update tf N) s msgs).n_ = (s.n_ + totalLen msgs) % 2 ^ 64 ∧
      (List.foldl (sha2_update tf N) s msgs).m_ < N ∧
      (List.foldl (sha2_update tf N) s msgs).m_ =
        (List.foldl (sha2_update tf N) s msgs).n_ % N := by
  intro msgs
  induction msgs with
  | nil =>
    intro s h1 h2 h3
    simp only [List.foldl_nil, totalLen, List.map_nil, List.sum_nil, Nat.add_zero]
    exact ⟨(Nat.mod_eq_of_lt h3).symm, h1, h2⟩
  | cons c cs ih =>
    intro s h1 h2 h3
    have hu := sha2_update_inv tf N hN hdvd s c h1 h2
    have hlt : (sha2_update tf N s c).n_ < 2 ^ 64 := by
      rw [hu.1]; exact Nat.mod_lt _ (by positivity)
    have hr := ih (sha2_update tf N s c) hu.2.1 hu.2.2 hlt
    simp only [List.foldl_cons]
    refine ⟨?_, hr.2.1, hr.2.2⟩
    rw [hr.1, hu.1, Nat.mod_add_mod]
    simp only [totalLen, List.map_cons, List.sum_cons]
    rw [Nat.add_assoc]

theorem goodState_foldl (tf : List Nat → St8 → St8) (N : Nat) (hN : 0 < N) :
    ∀ (msgs : List (List Nat)) (s : Sha2Base), goodState N s →
      goodState N (List.foldl (sha2_update tf N) s msgs) := by
  intro msgs
  induction msgs with
  | nil => intro s h; exact h
  | cons c cs ih => intro s h; exact ih _ (goodState_update tf N hN s h c)

theorem bytesBE_length : ∀ w x, (bytesBE w x).length = w := by
  intro w
  induction w with
  | zero => intro x; rfl
  | succ v ih =>
    intro x
    simp only [bytesBE, List.length_append, ih, List.length_cons, List.length_nil]

theorem bytesBE_split : ∀ b a x, bytesBE (a + b) x = bytesBE a (x / 256 ^ b) ++ bytesBE b x := by
  intro b
  induction b with
  | zero =>
    intro a x
    simp only [Nat.add_zero, pow_zero, Nat.div_one, bytesBE, List.append_nil]
  | succ v ih =>
    intro a x
    rw [show a + (v + 1) = (a + v) + 1 from rfl]
    show bytesBE (a + v) (x / 256) ++ [x % 256] = _
    rw [ih a (x / 256), Nat.div_div_eq_div_mul,
      show 256 * 256 ^ v = 256 ^ (v + 1) from (pow_succ 256 v ▸ Nat.mul_comm _ _),
      List.append_assoc]
    rfl

theorem bytesBE_take4 (x : Nat) : (bytesBE 8 x).take 4 = bytesBE 4 (x >>> 32) := by
  have h := List.take_left (bytesBE 4 (x / 256 ^ 4)) (bytesBE 4 x)
  rw [bytesBE_length] at h
  rw [show (8 : Nat) = 4 + 4 from rfl, bytesBE_split 4 4 x, h,
    Nat.shiftRight_eq_div_pow]
  norm_num

theorem beVal_append_singleton (l : List Nat) (b : Nat) :
    beVal (l ++ [b]) = beVal l * 256 + b := by
  simp [beVal, List.foldl_append]

theorem beVal_bytesBE : ∀ w x, beVal (bytesBE w x) = x % 2 ^ (8 * w) := by
  intro w
  induction w with
  | zero =>
    intro x
    simp [beVal, bytesBE, Nat.mod_one]
  | succ v ih =>
    intro x
    show beVal (bytesBE v (x / 256) ++ [x % 256]) = _
    rw [beVal_append_singleton, ih (x / 256)]
    have hp : 2 ^ (8 * (v + 1)) = 256 * 2 ^ (8 * v) := by
      rw [show 8 * (v + 1) = 8 * v + 8 from by ring, pow_add]
      norm_num [Nat.mul_comm]
    rw [hp]
    have hmm := @Nat.mod_mul 256 (2 ^ (8 * v)) x
    omega

theorem liveEq_trans (N : Nat) (a b c : Sha2Base)
    (h1 : liveEq N a b) (h2 : liveEq N b c) : liveEq N a c :=
  ⟨h1.1.trans h2.1, h1.2.1.trans h2.2.1, h1.2.2.1.trans h2.2.2.1,
    h1.2.2.2.1.trans h2.2.2.2.1, h1.2.2.2.2.1, h1.2.2.2.2.2.1, h2.2.2.2.2.2.2⟩

theorem chunking_liveEq (tf : List Nat → St8 → St8) (N : Nat) (hN : 0 < N)
    (iv : St8) (junk : List Nat) (chunks : List (List Nat)) :
    liveEq N (List.foldl (sha2_update tf N) (sha2_ctorWith iv N junk) chunks)
      (sha2_update tf N (sha2_ctorWith iv N junk) chunks.flatten) := by
  have e1 := liveEq_foldl tf N hN chunks _ _ (liveEq_ctorWith iv N hN junk [])
  have e2 := sha2_update_foldl tf N hN chunks _ (goodState_ctor iv N hN)
  have e3 := liveEq_update tf N hN _ _ (liveEq_ctorWith iv N hN [] junk) chunks.flatten
  rw [← e2] at e3
  exact liveEq_trans N _ _ _ e1 e3

theorem pad_k_bounds256 (m : Nat) (h : m < 64) :
    1 ≤ sha2_256_pad_k m ∧ sha2_256_pad_k m ≤ 64 := by
  unfold sha2_256_pad_k
  split <;> omega

theorem pad_k_bounds512 (m : Nat) (h : m < 128) :
    1 ≤ sha2_512_pad_k m ∧ sha2_512_pad_k m ≤ 128 := by
  unfold sha2_512_pad_k
  split <;> omega

theorem padding_take (N k : Nat) (h1 : 1 ≤ k) (h2 : k ≤ N) :
    (sha2_padding N).take k = 0x80 :: List.replicate (k - 1) 0 := by
  obtain ⟨l, rfl⟩ : ∃ l, k = l + 1 := ⟨k - 1, by omega⟩
  simp only [sha2_padding, List.take_succ_cons, List.take_replicate, Nat.add_sub_cancel]
  rw [Nat.min_eq_left (by omega)]

theorem pad_mod256 (m : Nat) (h : m < 64) :
    (m + sha2_256_pad_k m + 8) % 64 = 0 := by
  unfold sha2_256_pad_k
  split <;> omega

theorem pad_mod512 (m : Nat) (h : m < 128) :
    (m + sha2_512_pad_k m + 16) % 128 = 0 := by
  unfold sha2_512_pad_k
  split <;> omega

theorem sha2_padding_take_length (N k : Nat) (h2 : k ≤ N) (hN : 0 < N) :
    ((sha2_padding N).take k).length = k := by
  rw [List.length_take]
  simp only [sha2_padding, List.length_cons, List.length_replicate]
  omega

theorem add_mod_mod_of_dvd (a b M n : Nat) (h : n ∣ M) :
    (a % M + b) % n = (a + b) % n := by
  rw [Nat.add_mod, Nat.mod_mod_of_dvd a h, ← Nat.add_mod]

theorem finalState256_m (s : Sha2Base) (hm : s.m_ < 64) (hinv : s.m_ = s.n_ % 64) :
    (sha2_256_finalState s).m_ = 0 := by
  have hb := pad_k_bounds256 s.m_ hm
  have hlen : ((sha2_padding 64).take (sha2_256_pad_k s.m_)).length =
      sha2_256_pad_k s.m_ := sha2_padding_take_length 64 _ hb.2 (by omega)
  have hbits : (sha2_256_bits s).length = 8 := bytesBE_length 8 _
  have u1 := sha2_update_inv sha2_256_transform 64 (by omega) (by norm_num) s
    ((sha2_padding 64).take (sha2_256_pad_k s.m_)) hm hinv
  have u2 := sha2_update_inv sha2_256_transform 64 (by omega) (by norm_num)
    (sha2_update sha2_256_transform 64 s ((sha2_padding 64).take (sha2_256_pad_k s.m_)))
    (sha2_256_bits s) u1.2.1 u1.2.2
  show (sha2_update sha2_256_transform 64
      (sha2_update sha2_256_transform 64 s ((sha2_padding 64).take (sha2_256_pad_k s.m_)))
      (sha2_256_bits s)).m_ = 0
  rw [u2.2.2, u2.1, u1.1, hlen, hbits,
    Nat.mod_mod_of_dvd _ (by norm_num : (64:Nat) ∣ 2 ^ 64),
    add_mod_mod_of_dvd _ _ _ _ (by norm_num : (64:Nat) ∣ 2 ^ 64),
    Nat.add_assoc, ← Nat.mod_add_mod, ← hinv, ← Nat.add_assoc]
  exact pad_mod256 s.m_ hm

theorem finalState512_m (s : Sha2Base) (hm : s.m_ < 128) (hinv : s.m_ = s.n_ % 128) :
    (sha2_512_finalState s).m_ = 0 := by
  have hb := pad_k_bounds512 s.m_ hm
  have hlen : ((sha2_padding 128).take (sha2_512_pad_k s.m_)).length =
      sha2_512_pad_k s.m_ := sha2_padding_take_length 128 _ hb.2 (by omega)
  have hbits : (sha2_512_bits s).length = 16 := by
    simp only [sha2_512_bits, List.length_append, List.length_replicate, bytesBE_length]
  have u1 := sha2_update_inv sha2_512_transform 128 (by omega) (by norm_num) s
    ((sha2_padding 128).take (sha2_512_pad_k s.m_)) hm hinv
  have u2 := sha2_update_inv sha2_512_transform 128 (by omega) (by norm_num)
    (sha2_update sha2_512_transform 128 s ((sha2_padding 128).take (sha2_512_pad_k s.m_)))
    (sha2_512_bits s) u1.2.1 u1.2.2
  show (sha2_update sha2_512_transform 128
      (sha2_update sha2_512_transform 128 s ((sha2_padding 128).take (sha2_512_pad_k s.m_)))
      (sha2_512_bits s)).m_ = 0
  rw [u2.2.2, u2.1, u1.1, hlen, hbits,
    Nat.mod_mod_of_dvd _ (by norm_num : (128:Nat) ∣ 2 ^ 64),
    add_mod_mod_of_dvd _ _ _ _ (by norm_num : (128:Nat) ∣ 2 ^ 64),
    Nat.add_assoc, ← Nat.mod_add_mod, ← hinv, ← Nat.add_assoc]
  exact pad_mod512 s.m_ hm

/-- Claim C1, counterexample to the claim as stated: the C++ constructor leaves
`buffer_` indeterminate, and with nonzero indeterminate contents the chunked run
(61 bytes then 3 bytes) and the single 64-byte run end in different full
internal states — the chunked run has transformed and zeroed the buffer while
the single run transformed directly from the input and left the construction
garbage in place — so "the same final internal state" fails byte-for-byte even
though the live state and digest agree. -/
theorem C1_counterexample :
    List.foldl sha2_256_update (sha2_256_ctorWith (List.replicate 64 1))
        [List.replicate 61 0, List.replicate 3 0] ≠
      sha2_256_update (sha2_256_ctorWith (List.replicate 64 1))
        ([List.replicate 61 0, List.replicate 3 0] : List (List Nat)).flatten := by
  decide

/-- Claim C1 (amended): for every SHA-2 variant and every partition of an input
into consecutive chunks (zero-length chunks and mid-block / block-edge /
multi-block boundaries included), chunk-by-chunk updates from a freshly
constructed instance and a single update on the concatenation agree on the
entire live internal state — hash words, both counters and the buffered
prefix — and hence produce the identical digest from result(), whatever the
indeterminate construction-time buffer contents are; when those indeterminate
bytes are modelled as zero the two final internal states are fully equal. -/
theorem C1_chunking (chunks : List (List Nat)) :
    (List.foldl sha2_256_update sha2_256_ctor chunks =
      sha2_256_update sha2_256_ctor chunks.flatten) ∧
    (List.foldl sha2_256_update sha2_224_ctor chunks =
      sha2_256_update sha2_224_ctor chunks.flatten) ∧
    (List.foldl sha2_512_update sha2_512_ctor chunks =
      sha2_512_update sha2_512_ctor chunks.flatten) ∧
    (List.foldl sha2_512_update sha2_384_ctor chunks =
      sha2_512_update sha2_384_ctor chunks.flatten) ∧
    (List.foldl sha2_512_update sha2_512_224_ctor chunks =
      sha2_512_update sha2_512_224_ctor chunks.flatten) ∧
    (List.foldl sha2_512_update sha2_512_256_ctor chunks =
      sha2_512_update sha2_512_256_ctor chunks.flatten) ∧
    (∀ junk : List Nat,
      sha2_256_result (List.foldl sha2_256_update (sha2_256_ctorWith junk) chunks) =
        sha2_256_result (sha2_256_update (sha2_256_ctorWith junk) chunks.flatten) ∧
      sha2_224_result (List.foldl sha2_256_update (sha2_224_ctorWith junk) chunks) =
        sha2_224_result (sha2_256_update (sha2_224_ctorWith junk) chunks.flatten) ∧
      sha2_512_result (List.foldl sha2_512_update (sha2_512_ctorWith junk) chunks) =
        sha2_512_result (sha2_512_update (sha2_512_ctorWith junk) chunks.flatten) ∧
      sha2_384_result (List.foldl sha2_512_update (sha2_384_ctorWith junk) chunks) =
        sha2_384_result (sha2_512_update (sha2_384_ctorWith junk) chunks.flatten) ∧
      sha2_512_224_result (List.foldl sha2_512_update (sha2_512_224_ctorWith junk) chunks) =
        sha2_512_224_result (sha2_512_update (sha2_512_224_ctorWith junk) chunks.flatten) ∧
      sha2_512_256_result (List.foldl sha2_512_update (sha2_512_256_ctorWith junk) chunks) =
        sha2_512_256_result (sha2_512_update (sha2_512_256_ctorWith junk) chunks.flatten)) := by
  refine ⟨?_, ?_, ?_, ?_, ?_, ?_, ?_⟩
  · exact sha2_update_foldl sha2_256_transform 64 (by omega) chunks _
      (goodState_ctor sha2_256_iv 64 (by omega))
  · exact sha2_update_foldl sha2_256_transform 64 (by omega) chunks _
      (goodState_ctor sha2_224_iv 64 (by omega))
  · exact sha2_update_foldl sha2_512_transform 128 (by omega) chunks _
      (goodState_ctor sha2_512_iv 128 (by omega))
  · exact sha2_update_foldl sha2_512_transform 128 (by omega) chunks _
      (goodState_ctor sha2_384_iv 128 (by omega))
  · exact sha2_update_foldl sha2_512_transform 128 (by omega) chunks _
      (goodState_ctor sha2_512_224_iv 128 (by omega))
  · exact sha2_update_foldl sha2_512_transform 128 (by omega) chunks _
      (goodState_ctor sha2_512_256_iv 128 (by omega))
  · intro junk
    refine ⟨?_, ?_, ?_, ?_, ?_, ?_⟩
    · exact (liveEq_results256 _ _
        (chunking_liveEq sha2_256_transform 64 (by omega) sha2_256_iv junk chunks)).1
    · exact (liveEq_results256 _ _
        (chunking_liveEq sha2_256_transform 64 (by omega) sha2_224_iv junk chunks)).2
    · exact (liveEq_results512 _ _
        (chunking_liveEq sha2_512_transform 128 (by omega) sha2_512_iv junk chunks)).1
    · exact (liveEq_results512 _ _
        (chunking_liveEq sha2_512_transform 128 (by omega) sha2_384_iv junk chunks)).2.1
    · exact (liveEq_results512 _ _
        (chunking_liveEq sha2_512_transform 128 (by omega) sha2_512_224_iv junk chunks)).2.2.1
    · exact (liveEq_results512 _ _
        (chunking_liveEq sha2_512_transform 128 (by omega) sha2_512_256_iv junk chunks)).2.2.2

/-- Claim C4: starting from a freshly constructed instance (any initialization
vector, any indeterminate buffer contents), after every sequence of update
calls the buffered-byte count `m_` equals the 64-bit total counter `n_` modulo
the block size, `m_` stays below the block size, and `n_` equals the total
number of absorbed bytes reduced modulo `2^64` (the counter is bumped by the
full input length at the top of update, before any transform), for both the
64-byte-block and the 128-byte-block families — so the entry assertion
`m_ == n_ % N` of `sha2_base::update` can never fire. -/
theorem C4_counter_invariant (iv : St8) (junk : List Nat) (msgs : List (List Nat)) :
    ((List.foldl sha2_256_update (sha2_ctorWith iv 64 junk) msgs).n_ =
        totalLen msgs % 2 ^ 64 ∧
      (List.foldl sha2_256_update (sha2_ctorWith iv 64 junk) msgs).m_ < 64 ∧
      (List.foldl sha2_256_update (sha2_ctorWith iv 64 junk) msgs).m_ =
        (List.foldl sha2_256_update (sha2_ctorWith iv 64 junk) msgs).n_ % 64) ∧
    ((List.foldl sha2_512_update (sha2_ctorWith iv 128 junk) msgs).n_ =
        totalLen msgs % 2 ^ 64 ∧
      (List.foldl sha2_512_update (sha2_ctorWith iv 128 junk) msgs).m_ < 128 ∧
      (List.foldl sha2_512_update (sha2_ctorWith iv 128 junk) msgs).m_ =
        (List.foldl sha2_512_update (sha2_ctorWith iv 128 junk) msgs).n_ % 128) := by
  constructor
  · have h := sha2_foldl_inv sha2_256_transform 64 (by omega) (by norm_num) msgs
      (sha2_ctorWith iv 64 junk) (by show (0:Nat) < 64; omega)
      (by show (0:Nat) = 0 % 64; simp) (by show (0:Nat) < 2 ^ 64; positivity)
    refine ⟨?_, h.2.1, h.2.2⟩
    have h1 := h.1
    rw [show (sha2_ctorWith iv 64 junk).n_ = 0 from rfl, Nat.zero_add] at h1
    exact h1
  · have h := sha2_foldl_inv sha2_512_transform 128 (by omega) (by norm_num) msgs
      (sha2_ctorWith iv 128 junk) (by show (0:Nat) < 128; omega)
      (by show (0:Nat) = 0 % 128; simp) (by show (0:Nat) < 2 ^ 64; positivity)
    refine ⟨?_, h.2.1, h.2.2⟩
    have h1 := h.1
    rw [show (sha2_ctorWith iv 128 junk).n_ = 0 from rfl, Nat.zero_add] at h1
    exact h1

/-- Claim C2: for every absorbed byte stream, result()'s padding update passes
exactly the bytes `0x80` followed by `k - 1` zeros and then the 8-byte
(64-byte-block family) or 16-byte (128-byte-block family) big-endian length
field; the padded stream length `total + k + 8` (resp. `+ 16`) is an exact
multiple of the block size, so the buffered count `m_` is zero when result()
returns; in particular messages of length one block minus 1, exactly one
block, and one block plus 1 pad to exactly two blocks of compression. -/
theorem C2_padding_layout (junk : List Nat) (msgs : List (List Nat)) :
    ((List.foldl sha2_256_update (sha2_256_ctorWith junk) msgs).m_ =
        totalLen msgs % 64 ∧
      1 ≤ sha2_256_pad_k (totalLen msgs % 64) ∧
      (sha2_padding 64).take (sha2_256_pad_k (totalLen msgs % 64)) =
        0x80 :: List.replicate (sha2_256_pad_k (totalLen msgs % 64) - 1) 0 ∧
      (sha2_256_bits (List.foldl sha2_256_update (sha2_256_ctorWith junk) msgs)).length = 8 ∧
      (totalLen msgs + sha2_256_pad_k (totalLen msgs % 64) + 8) % 64 = 0 ∧
      (sha2_256_finalState (List.foldl sha2_256_update (sha2_256_ctorWith junk) msgs)).m_ = 0) ∧
    ((List.foldl sha2_512_update (sha2_512_ctorWith junk) msgs).m_ =
        totalLen msgs % 128 ∧
      1 ≤ sha2_512_pad_k (totalLen msgs % 128) ∧
      (sha2_padding 128).take (sha2_512_pad_k (totalLen msgs % 128)) =
        0x80 :: List.replicate (sha2_512_pad_k (totalLen msgs % 128) - 1) 0 ∧
      (sha2_512_bits (List.foldl sha2_512_update (sha2_512_ctorWith junk) msgs)).length = 16 ∧
      (totalLen msgs + sha2_512_pad_k (totalLen msgs % 128) + 16) % 128 = 0 ∧
      (sha2_512_finalState (List.foldl sha2_512_update (sha2_512_ctorWith junk) msgs)).m_ = 0) ∧
    63 + sha2_256_pad_k (63 % 64) + 8 = 2 * 64 ∧
    64 + sha2_256_pad_k (64 % 64) + 8 = 2 * 64 ∧
    65 + sha2_256_pad_k (65 % 64) + 8 = 2 * 64 ∧
    127 + sha2_512_pad_k (127 % 128) + 16 = 2 * 128 ∧
    128 + sha2_512_pad_k (128 % 128) + 16 = 2 * 128 ∧
    129 + sha2_512_pad_k (129 % 128) + 16 = 2 * 128 := by
  have h256 := sha2_foldl_inv sha2_256_transform 64 (by omega) (by norm_num) msgs
    (sha2_ctorWith sha2_256_iv 64 junk) (by show (0:Nat) < 64; omega)
    (by show (0:Nat) = 0 % 64; simp) (by show (0:Nat) < 2 ^ 64; positivity)
  have h512 := sha2_foldl_inv sha2_512_transform 128 (by omega) (by norm_num) msgs
    (sha2_ctorWith sha2_512_iv 128 junk) (by show (0:Nat) < 128; omega)
    (by show (0:Nat) = 0 % 128; simp) (by show (0:Nat) < 2 ^ 64; positivity)
  have hm256 : (List.foldl sha2_256_update (sha2_256_ctorWith junk) msgs).m_ =
      totalLen msgs % 64 := by
    have := h256.2.2
    rw [h256.1, show (sha2_ctorWith sha2_256_iv 64 junk).n_ = 0 from rfl,
      Nat.zero_add, Nat.mod_mod_of_dvd _ (by norm_num : (64:Nat) ∣ 2 ^ 64)] at this
    exact this
  have hm512 : (List.foldl sha2_512_update (sha2_512_ctorWith junk) msgs).m_ =
      totalLen msgs % 128 := by
    have := h512.2.2
    rw [h512.1, show (sha2_ctorWith sha2_512_iv 128 junk).n_ = 0 from rfl,
      Nat.zero_add, Nat.mod_mod_of_dvd _ (by norm_num : (128:Nat) ∣ 2 ^ 64)] at this
    exact this
  have hb256 := pad_k_bounds256 (totalLen msgs % 64) (Nat.mod_lt _ (by omega))
  have hb512 := pad_k_bounds512 (totalLen msgs % 128) (Nat.mod_lt _ (by omega))
  refine ⟨⟨hm256, hb256.1, padding_take 64 _ hb256.1 hb256.2, bytesBE_length 8 _,
      ?_, ?_⟩,
    ⟨hm512, hb512.1, padding_take 128 _ hb512.1 hb512.2, ?_, ?_, ?_⟩,
    ?_, ?_, ?_, ?_, ?_, ?_⟩
  · have := pad_mod256 (totalLen msgs % 64) (Nat.mod_lt _ (by omega))
    omega
  · exact finalState256_m _ h256.2.1 h256.2.2
  · simp only [sha2_512_bits, List.length_append, List.length_replicate, bytesBE_length]
  · have := pad_mod512 (totalLen msgs % 128) (Nat.mod_lt _ (by omega))
    omega
  · exact finalState512_m _ h512.2.1 h512.2.2
  · decide
  · decide
  · decide
  · decide
  · decide
  · decide

/-- Claim C8: the digest returned by result() depends only on the sequence of
absorbed bytes: two instances of the same algorithm constructed with different
arbitrary contents in the indeterminate block buffer, fed the identical
sequence of update calls, produce identical digests for every SHA-2 variant —
the buffer is only transformed when completely full and its bytes at indices
`≥ m_` are never read. -/
theorem C8_buffer_independence (junk1 junk2 : List Nat) (msgs : List (List Nat)) :
    sha2_256_result (List.foldl sha2_256_update (sha2_256_ctorWith junk1) msgs) =
      sha2_256_result (List.foldl sha2_256_update (sha2_256_ctorWith junk2) msgs) ∧
    sha2_224_result (List.foldl sha2_256_update (sha2_224_ctorWith junk1) msgs) =
      sha2_224_result (List.foldl sha2_256_update (sha2_224_ctorWith junk2) msgs) ∧
    sha2_512_result (List.foldl sha2_512_update (sha2_512_ctorWith junk1) msgs) =
      sha2_512_result (List.foldl sha2_512_update (sha2_512_ctorWith junk2) msgs) ∧
    sha2_384_result (List.foldl sha2_512_update (sha2_384_ctorWith junk1) msgs) =
      sha2_384_result (List.foldl sha2_512_update (sha2_384_ctorWith junk2) msgs) ∧
    sha2_512_224_result (List.foldl sha2_512_update (sha2_512_224_ctorWith junk1) msgs) =
      sha2_512_224_result (List.foldl sha2_512_update (sha2_512_224_ctorWith junk2) msgs) ∧
    sha2_512_256_result (List.foldl sha2_512_update (sha2_512_256_ctorWith junk1) msgs) =
      sha2_512_256_result (List.foldl sha2_512_update (sha2_512_256_ctorWith junk2) msgs) := by
  refine ⟨?_, ?_, ?_, ?_, ?_, ?_⟩
  · exact (liveEq_results256 _ _ (liveEq_foldl sha2_256_transform 64 (by omega) msgs _ _
      (liveEq_ctorWith sha2_256_iv 64 (by omega) junk1 junk2))).1
  · exact (liveEq_results256 _ _ (liveEq_foldl sha2_256_transform 64 (by omega) msgs _ _
      (liveEq_ctorWith sha2_224_iv 64 (by omega) junk1 junk2))).2
  · exact (liveEq_results512 _ _ (liveEq_foldl sha2_512_transform 128 (by omega) msgs _ _
      (liveEq_ctorWith sha2_512_iv 128 (by omega) junk1 junk2))).1
  · exact (liveEq_results512 _ _ (liveEq_foldl sha2_512_transform 128 (by omega) msgs _ _
      (liveEq_ctorWith sha2_384_iv 128 (by omega) junk1 junk2))).2.1
  · exact (liveEq_results512 _ _ (liveEq_foldl sha2_512_transform 128 (by omega) msgs _ _
      (liveEq_ctorWith sha2_512_224_iv 128 (by omega) junk1 junk2))).2.2.1
  · exact (liveEq_results512 _ _ (liveEq_foldl sha2_512_transform 128 (by omega) msgs _ _
      (liveEq_ctorWith sha2_512_256_iv 128 (by omega) junk1 junk2))).2.2.2

theorem take_bytesBE8_append (x : Nat) (l : List Nat) (i : Nat) :
    (bytesBE 8 x ++ l).take (8 + i) = bytesBE 8 x ++ l.take i := by
  have h : (bytesBE 8 x ++ l).take ((bytesBE 8 x).length + i) = bytesBE 8 x ++ l.take i :=
    List.take_append i
  rw [bytesBE_length] at h
  exact h

theorem take_bytesBE4_append (x : Nat) (l : List Nat) (i : Nat) :
    (bytesBE 4 x ++ l).take (4 + i) = bytesBE 4 x ++ l.take i := by
  have h : (bytesBE 4 x ++ l).take ((bytesBE 4 x).length + i) = bytesBE 4 x ++ l.take i :=
    List.take_append i
  rw [bytesBE_length] at h
  exact h

/-- Claim C3: hashing the ASCII string "abc" (0x61 0x62 0x63) with sha2_256 —
one update call followed by result() — yields exactly the published reference
digest ba7816bf…0015ad, and result() on a fresh instance with no update yields
the published empty-string digest e3b0c442…52b855. -/
theorem C3_known_answers :
    sha2_256_result (sha2_256_update sha2_256_ctor [0x61, 0x62, 0x63]) =
      [0xba, 0x78, 0x16, 0xbf, 0x8f, 0x01, 0xcf, 0xea, 0x41, 0x41, 0x40, 0xde,
       0x5d, 0xae, 0x22, 0x23, 0xb0, 0x03, 0x61, 0xa3, 0x96, 0x17, 0x7a, 0x9c,
       0xb4, 0x10, 0xff, 0x61, 0xf2, 0x00, 0x15, 0xad] ∧
    sha2_256_result sha2_256_ctor =
      [0xe3, 0xb0, 0xc4, 0x42, 0x98, 0xfc, 0x1c, 0x14, 0x9a, 0xfb, 0xf4, 0xc8,
       0x99, 0x6f, 0xb9, 0x24, 0x27, 0xae, 0x41, 0xe4, 0x64, 0x9b, 0x93, 0x4c,
       0xa4, 0x95, 0x99, 0x1b, 0x78, 0x52, 0xb8, 0x55] := by
  decide

/-- Claim C5: `sha2_512_224::result` produces a 28-byte digest that is the
first three 64-bit state words big-endian followed by the high 32 bits of the
fourth — i.e. exactly the first 28 bytes of the full 8-word serialization that
`sha2_512::result` would emit for the same absorbed stream — and
`sha2_224::result` produces a 28-byte digest that is the first 7 of the 8
32-bit state words, i.e. the first 28 bytes of the `sha2_256::result`
serialization; this holds at every digest state. -/
theorem C5_truncation (s : Sha2Base) :
    (sha2_512_224_result s).length = 28 ∧
    sha2_512_224_result s = (sha2_512_result s).take 28 ∧
    (sha2_224_result s).length = 28 ∧
    sha2_224_result s = (sha2_256_result s).take 28 := by
  refine ⟨?_, ?_, ?_, ?_⟩
  · simp [sha2_512_224_result, List.length_append, bytesBE_length]
  · simp only [sha2_512_224_result, sha2_512_result, List.append_assoc]
    rw [show (28 : Nat) = 8 + (8 + (8 + 4)) from rfl,
      take_bytesBE8_append, take_bytesBE8_append, take_bytesBE8_append,
      List.take_append_of_le_length (by simp [bytesBE_length]),
      bytesBE_take4]
  · simp [sha2_224_result, List.length_append, bytesBE_length]
  · have hlast : (bytesBE 4 (sha2_256_finalState s).state_.g ++
        bytesBE 4 (sha2_256_finalState s).state_.h).take 4 =
        bytesBE 4 (sha2_256_finalState s).state_.g := by
      rw [List.take_append_of_le_length (by simp [bytesBE_length])]
      have h := List.take_length (bytesBE 4 (sha2_256_finalState s).state_.g)
      rw [bytesBE_length] at h
      exact h
    simp only [sha2_224_result, sha2_256_result, List.append_assoc]
    rw [show (28 : Nat) = 4 + (4 + (4 + (4 + (4 + (4 + 4))))) from rfl,
      take_bytesBE4_append, take_bytesBE4_append, take_bytesBE4_append,
      take_bytesBE4_append, take_bytesBE4_append, take_bytesBE4_append, hlast]

/-- Claim C6: for every algorithm of the 128-byte-block family (any
initialization vector, so sha2_512, sha2_384, sha2_512_224 and sha2_512_256
alike, and any indeterminate buffer contents), for every absorbed stream of
fewer than 2^61 bytes (2^64 bits) the 16-byte length field appended by
result() has its high 64 bits (first 8 bytes) literally zero and its low
64 bits equal, as a big-endian value, to 8 times the number of absorbed
bytes. -/
theorem C6_length_field (iv : St8) (junk : List Nat) (msgs : List (List Nat))
    (h : totalLen msgs < 2 ^ 61) :
    (sha2_512_bits (List.foldl sha2_512_update (sha2_ctorWith iv 128 junk) msgs)).length = 16 ∧
    (sha2_512_bits (List.foldl sha2_512_update (sha2_ctorWith iv 128 junk) msgs)).take 8 =
      List.replicate 8 0 ∧
    beVal ((sha2_512_bits (List.foldl sha2_512_update (sha2_ctorWith iv 128 junk) msgs)).drop 8) =
      8 * totalLen msgs := by
  have hinv := sha2_foldl_inv sha2_512_transform 128 (by omega) (by norm_num) msgs
    (sha2_ctorWith iv 128 junk) (by show (0:Nat) < 128; omega)
    (by show (0:Nat) = 0 % 128; simp) (by show (0:Nat) < 2 ^ 64; positivity)
  have hn : (List.foldl sha2_512_update (sha2_ctorWith iv 128 junk) msgs).n_ =
      totalLen msgs := by
    have h1 := hinv.1
    rw [show (sha2_ctorWith iv 128 junk).n_ = 0 from rfl, Nat.zero_add,
      Nat.mod_eq_of_lt (by omega)] at h1
    exact h1
  have htk : (List.replicate 8 0 ++
      bytesBE 8 ((List.foldl sha2_512_update (sha2_ctorWith iv 128 junk) msgs).n_ * 8)).take 8 =
      List.replicate 8 0 := by
    have h2 := List.take_left (List.replicate 8 (0 : Nat))
      (bytesBE 8 ((List.foldl sha2_512_update (sha2_ctorWith iv 128 junk) msgs).n_ * 8))
    rw [List.length_replicate] at h2
    exact h2
  have hdr : (List.replicate 8 0 ++
      bytesBE 8 ((List.foldl sha2_512_update (sha2_ctorWith iv 128 junk) msgs).n_ * 8)).drop 8 =
      bytesBE 8 ((List.foldl sha2_512_update (sha2_ctorWith iv 128 junk) msgs).n_ * 8) := by
    have h2 := List.drop_left (List.replicate 8 (0 : Nat))
      (bytesBE 8 ((List.foldl sha2_512_update (sha2_ctorWith iv 128 junk) msgs).n_ * 8))
    rw [List.length_replicate] at h2
    exact h2
  refine ⟨?_, ?_, ?_⟩
  · simp [sha2_512_bits, List.length_append, bytesBE_length]
  · exact htk
  · show beVal ((List.replicate 8 0 ++
      bytesBE 8 ((List.foldl sha2_512_update (sha2_ctorWith iv 128 junk) msgs).n_ * 8)).drop 8) =
      8 * totalLen msgs
    rw [hdr, beVal_bytesBE, hn, Nat.mod_eq_of_lt (by omega), Nat.mul_comm]

/-- Witness for C6 at a concrete three-byte stream. -/
theorem C6_length_field_witness :
    totalLen [[0, 0, 0]] < 2 ^ 61 ∧
    ((sha2_512_bits (List.foldl sha2_512_update (sha2_ctorWith sha2_512_iv 128 [])
        [[0, 0, 0]])).length = 16 ∧
      (sha2_512_bits (List.foldl sha2_512_update (sha2_ctorWith sha2_512_iv 128 [])
        [[0, 0, 0]])).take 8 = List.replicate 8 0 ∧
      beVal ((sha2_512_bits (List.foldl sha2_512_update (sha2_ctorWith sha2_512_iv 128 [])
        [[0, 0, 0]])).drop 8) = 8 * totalLen [[0, 0, 0]]) :=
  ⟨by decide, C6_length_field sha2_512_iv [] [[0, 0, 0]] (by decide)⟩

/-- Claim C7, counterexample to the claim as stated: the constructor of
`sha2_base` initializes only `m_` and `n_`, leaving `buffer_` indeterminate;
a freshly constructed instance whose indeterminate buffer bytes are nonzero
(here all 1) has `m_ = 0` yet `buffer_[0] = 1 ≠ 0`, refuting
"buffer_[i] = 0 for all m_ ≤ i < N" at the state immediately after
construction. -/
theorem C7_counterexample :
    (sha2_256_ctorWith (List.replicate 64 1)).m_ = 0 ∧
    (sha2_256_ctorWith (List.replicate 64 1)).buffer_.getD 0 0 = 1 := by
  decide

/-- Claim C7 (amended): with the construction-time indeterminate buffer bytes
modelled as zero, the unfilled tail of the block buffer is zero at every
reachable state — after construction and after every sequence of update calls,
`buffer_` from index `m_` on is all zeros (both block families); in the code
the tail bytes are in any case never read, since the buffer is passed to the
transform only when completely full (claim C8's theorem). -/
theorem C7_zero_tail (msgs : List (List Nat)) :
    (List.foldl sha2_256_update sha2_256_ctor msgs).buffer_.drop
        (List.foldl sha2_256_update sha2_256_ctor msgs).m_ =
      List.replicate (64 - (List.foldl sha2_256_update sha2_256_ctor msgs).m_) 0 ∧
    (List.foldl sha2_512_update sha2_512_ctor msgs).buffer_.drop
        (List.foldl sha2_512_update sha2_512_ctor msgs).m_ =
      List.replicate (128 - (List.foldl sha2_512_update sha2_512_ctor msgs).m_) 0 := by
  constructor
  · exact (goodState_foldl sha2_256_transform 64 (by omega) msgs _
      (goodState_ctor sha2_256_iv 64 (by omega))).2.2.1
  · exact (goodState_foldl sha2_512_transform 128 (by omega) msgs _
      (goodState_ctor sha2_512_iv 128 (by omega))).2.2.1

set_option maxRecDepth 8192 in
/-- Claim C9: in every result() implementation the zero-padding length `k`
computed from the buffered count `m_ < N` satisfies `1 ≤ k ≤ N` (block size
64 resp. 128), so taking `k` bytes of the one-block local `padding` array
stays in bounds (the take really yields `k` bytes of the `N`-byte array) and
the first appended byte is always `0x80` — also when the absorbed length is
an exact multiple of the block size (`m_ = 0`). -/
theorem C9_pad_k_in_bounds :
    (sha2_padding 64).length = 64 ∧ (sha2_padding 128).length = 128 ∧
    (∀ m : Fin 64, 1 ≤ sha2_256_pad_k m.val ∧ sha2_256_pad_k m.val ≤ 64 ∧
      ((sha2_padding 64).take (sha2_256_pad_k m.val)).length = sha2_256_pad_k m.val ∧
      ((sha2_padding 64).take (sha2_256_pad_k m.val)).getD 0 0 = 0x80) ∧
    (∀ m : Fin 128, 1 ≤ sha2_512_pad_k m.val ∧ sha2_512_pad_k m.val ≤ 128 ∧
      ((sha2_padding 128).take (sha2_512_pad_k m.val)).length = sha2_512_pad_k m.val ∧
      ((sha2_padding 128).take (sha2_512_pad_k m.val)).getD 0 0 = 0x80) := by
  decide

theorem memset_loop_eq (p : List Nat) (v : Nat) :
    ∀ n, n ≤ p.length → memset_loop p v n = List.replicate n v ++ p.drop n := by
  intro n
  induction n with
  | zero => intro h; simp [memset_loop]
  | succ k ih =>
    intro h
    show (memset_loop p v k).set k v = _
    rw [ih (by omega),
      List.set_append_right k v (by rw [List.length_replicate]),
      List.length_replicate, Nat.sub_self,
      List.drop_eq_getElem_cons (show k < p.length from by omega)]
    show List.replicate k v ++ v :: p.drop (k + 1) = _
    rw [List.append_cons, ← List.replicate_succ']

/-- Claim C10: `detail::memset(p, v, n)` computes the same result in both of
its branches: the constexpr byte loop is extensionally equal to the
`std::memset` branch — each of the first `n` bytes becomes `v` and every byte
outside that range is unchanged. -/
theorem C10_memset_equiv (p : List Nat) (v : Nat) (n : Nat) (h : n ≤ p.length) :
    memset_loop p v n = memset_std p v n ∧
    (memset_loop p v n).length = p.length ∧
    (memset_loop p v n).drop n = p.drop n := by
  have he := memset_loop_eq p v n h
  refine ⟨he, ?_, ?_⟩
  · rw [he, List.length_append, List.length_replicate, List.length_drop]
    omega
  · rw [he]
    have h2 := List.drop_left (List.replicate n v) (p.drop n)
    rw [List.length_replicate] at h2
    exact h2

/-- Witness for C10 at a concrete buffer. -/
theorem C10_memset_equiv_witness :
    2 ≤ ([5, 6, 7] : List Nat).length ∧
    (memset_loop [5, 6, 7] 9 2 = memset_std [5, 6, 7] 9 2 ∧
      (memset_loop [5, 6, 7] 9 2).length = ([5, 6, 7] : List Nat).length ∧
      (memset_loop [5, 6, 7] 9 2).drop 2 = ([5, 6, 7] : List Nat).drop 2) :=
  ⟨by decide, C10_memset_equiv [5, 6, 7] 9 2 (by decide)⟩

end Hash2
